import Mathlib

/-!
Verification of the Camille MCP pipe proxy (`mcp-pipe-proxy.py`).

The proxy bridges a line-delimited JSON-RPC peer on stdin/stdout to a
Unix-socket backend.  This file gives a shallow embedding of the proxy's
message framing (`json.dumps(request) + '\n'` / line-splitting decode),
its `forward_to_pipe` read loop, `reconnect_with_backoff`, and the main
request loop, and proves the specified properties about them.

Modelling conventions: byte strings are `List Char`; JSON numbers are
integers (`Int`); the filesystem environment (socket path existence,
config-file readability) is a record of booleans; connection attempts and
forwarding attempts are driven by oracles (`Nat → Bool`,
`Nat → Option Json`) standing for the outcomes the operating system and
backend produce; `time.sleep` is recorded as an event rather than
performed.
-/

set_option maxRecDepth 8192

/-- A JSON value, as produced by Python's `json.loads`: object member
order is the textual order, numbers are restricted to integers (the
messages the proxy handles carry integer or string identifiers). -/
inductive Json where
  | null
  | bool (b : Bool)
  | num (i : Int)
  | str (s : List Char)
  | arr (xs : List Json)
  | obj (kvs : List (List Char × Json))

/-- The decimal digit character for `n < 10`. -/
def digitChar (n : Nat) : Char := Char.ofNat (48 + n)

/-- Lower-case hex digit character for `n < 16`. -/
def hexChar (n : Nat) : Char := if n < 10 then Char.ofNat (48 + n) else Char.ofNat (87 + n)

/-- Decimal digits of `n`, most significant first (fuelled form). -/
def natDigitsAux : Nat → Nat → List Char
  | 0, _ => []
  | fuel + 1, n => if n < 10 then [digitChar n] else natDigitsAux fuel (n / 10) ++ [digitChar (n % 10)]

/-- Decimal digits of `n`, most significant first. -/
def natDigits (n : Nat) : List Char := natDigitsAux (n + 1) n

/-- Python's `repr` of an integer, as used by `json.dumps`. -/
def intChars (i : Int) : List Char := if i < 0 then '-' :: natDigits i.natAbs else natDigits i.toNat

/-- JSON string escaping of one character, as in Python's `json.dumps`:
the two-character escapes for quote, backslash and common control
characters, `\u00XX` for the remaining control characters, and the
character itself otherwise. -/
def escChar (c : Char) : List Char :=
  if c = '"' then ['\\', '"']
  else if c = '\\' then ['\\', '\\']
  else if c = '\n' then ['\\', 'n']
  else if c = '\r' then ['\\', 'r']
  else if c = '\t' then ['\\', 't']
  else if c = Char.ofNat 8 then ['\\', 'b']
  else if c = Char.ofNat 12 then ['\\', 'f']
  else if c.toNat < 32 then ['\\', 'u', '0', '0', hexChar (c.toNat / 16), hexChar (c.toNat % 16)]
  else [c]

/-- JSON string escaping, character by character. -/
def escStr : List Char → List Char
  | [] => []
  | c :: cs => escChar c ++ escStr cs

mutual
/-- `json.dumps` with Python's default separators `", "` and `": "`. -/
def dumps : Json → List Char
  | .null => "null".data
  | .bool true => "true".data
  | .bool false => "false".data
  | .num i => intChars i
  | .str s => '"' :: escStr s ++ ['"']
  | .arr [] => ['[', ']']
  | .arr (x :: xs) => '[' :: (dumps x ++ dumpsArrTail xs) ++ [']']
  | .obj [] => ['{', '}']
  | .obj ((k, v) :: ms) =>
      '{' :: (('"' :: escStr k ++ '"' :: ':' :: ' ' :: dumps v) ++ dumpsObjTail ms) ++ ['}']

/-- Remaining array elements, each preceded by `", "`. -/
def dumpsArrTail : List Json → List Char
  | [] => []
  | x :: xs => ',' :: ' ' :: (dumps x ++ dumpsArrTail xs)

/-- Remaining object members, each preceded by `", "`. -/
def dumpsObjTail : List (List Char × Json) → List Char
  | [] => []
  | (k, v) :: ms =>
      ',' :: ' ' :: (('"' :: escStr k ++ '"' :: ':' :: ' ' :: dumps v) ++ dumpsObjTail ms)
end

/-- One object member: quoted escaped key, `": "`, value. -/
def dumpsMember (k : List Char) (v : Json) : List Char :=
  '"' :: escStr k ++ '"' :: ':' :: ' ' :: dumps v

/-- The serialized elements of an array, `", "`-separated. -/
def dumpsElems : List Json → List Char
  | [] => []
  | x :: xs => dumps x ++ dumpsArrTail xs

/-- The serialized members of an object, `", "`-separated. -/
def dumpsMembers : List (List Char × Json) → List Char
  | [] => []
  | (k, v) :: ms => dumpsMember k v ++ dumpsObjTail ms

/-- JSON insignificant whitespace. -/
def isWsChar (c : Char) : Bool := c = ' ' || c = '\t' || c = '\n' || c = '\r'

/-- Skip insignificant whitespace. -/
def skipWs (s : List Char) : List Char := s.dropWhile isWsChar

/-- Python's `str.strip`: whitespace removed from both ends. -/
def strip (s : List Char) : List Char :=
  ((s.dropWhile isWsChar).reverse.dropWhile isWsChar).reverse

/-- Consume an exact character sequence, returning the remainder. -/
def expectChars : List Char → List Char → Option (List Char)
  | [], s => some s
  | p :: ps, c :: s => if c = p then expectChars ps s else none
  | _ :: _, [] => none

/-- Value of a hex digit character. -/
def hexVal (c : Char) : Option Nat :=
  if '0' ≤ c ∧ c ≤ '9' then some (c.toNat - 48)
  else if 'a' ≤ c ∧ c ≤ 'f' then some (c.toNat - 87)
  else if 'A' ≤ c ∧ c ≤ 'F' then some (c.toNat - 55)
  else none

/-- Parse the body of a JSON string (after the opening quote), up to and
including the closing quote.  Unescaped control characters are rejected,
as in `json.loads`' strict mode. -/
def parseStr : List Char → Option (List Char × List Char)
  | [] => none
  | c :: r =>
    if c = '"' then some ([], r)
    else if c = '\\' then
      match r with
      | [] => none
      | e :: r1 =>
        if e = '"' then (parseStr r1).map (fun p => ('"' :: p.1, p.2))
        else if e = '\\' then (parseStr r1).map (fun p => ('\\' :: p.1, p.2))
        else if e = '/' then (parseStr r1).map (fun p => ('/' :: p.1, p.2))
        else if e = 'n' then (parseStr r1).map (fun p => ('\n' :: p.1, p.2))
        else if e = 'r' then (parseStr r1).map (fun p => ('\r' :: p.1, p.2))
        else if e = 't' then (parseStr r1).map (fun p => ('\t' :: p.1, p.2))
        else if e = 'b' then (parseStr r1).map (fun p => (Char.ofNat 8 :: p.1, p.2))
        else if e = 'f' then (parseStr r1).map (fun p => (Char.ofNat 12 :: p.1, p.2))
        else if e = 'u' then
          match r1 with
          | a1 :: a2 :: a3 :: a4 :: r2 =>
            match hexVal a1 with
            | none => none
            | some d1 =>
              match hexVal a2 with
              | none => none
              | some d2 =>
                match hexVal a3 with
                | none => none
                | some d3 =>
                  match hexVal a4 with
                  | none => none
                  | some d4 =>
                    (parseStr r2).map
                      (fun p => (Char.ofNat (((d1 * 16 + d2) * 16 + d3) * 16 + d4) :: p.1, p.2))
          | _ => none
        else none
    else if c.toNat < 32 then none
    else (parseStr r).map (fun p => (c :: p.1, p.2))

/-- Value of a list of decimal digit characters, accumulator form. -/
def digitsVal (acc : Nat) : List Char → Nat
  | [] => acc
  | c :: cs => digitsVal (acc * 10 + (c.toNat - 48)) cs

/-- Parse a maximal run of decimal digits. -/
def parseNat (s : List Char) : Option (Nat × List Char) :=
  if (s.takeWhile Char.isDigit).isEmpty then none
  else some (digitsVal 0 (s.takeWhile Char.isDigit), s.dropWhile Char.isDigit)

/-- Parse the elements of a non-empty JSON array (after the opening
bracket and leading whitespace), given a value parser `pv`. -/
def parseListAux (pv : List Char → Option (Json × List Char)) :
    Nat → List Char → Option (List Json × List Char)
  | 0, _ => none
  | g + 1, s =>
    match pv s with
    | none => none
    | some (v, r) =>
      match skipWs r with
      | [] => none
      | c :: r1 =>
        if c = ',' then
          match parseListAux pv g r1 with
          | some (vs, r2) => some (v :: vs, r2)
          | none => none
        else if c = ']' then some ([v], r1)
        else none

/-- Parse the members of a non-empty JSON object (after the opening
brace), given a value parser `pv`. -/
def parseMembersAux (pv : List Char → Option (Json × List Char)) :
    Nat → List Char → Option (List (List Char × Json) × List Char)
  | 0, _ => none
  | g + 1, s =>
    match skipWs s with
    | [] => none
    | c :: r =>
      if c = '"' then
        match parseStr r with
        | none => none
        | some (k, r1) =>
          match skipWs r1 with
          | [] => none
          | c2 :: r2 =>
            if c2 = ':' then
              match pv r2 with
              | none => none
              | some (v, r3) =>
                match skipWs r3 with
                | [] => none
                | c4 :: r4 =>
                  if c4 = ',' then
                    match parseMembersAux pv g r4 with
                    | some (ms, r5) => some ((k, v) :: ms, r5)
                    | none => none
                  else if c4 = '}' then some ([(k, v)], r4)
                  else none
            else none
      else none

/-- Parse one JSON value, fuelled (the fuel bounds nesting and element
counts; `loads` supplies input length + 1, which always suffices). -/
def parseVal : Nat → List Char → Option (Json × List Char)
  | 0, _ => none
  | f + 1, s =>
    match skipWs s with
    | [] => none
    | c :: r =>
      if c = 'n' then (expectChars ['u', 'l', 'l'] r).map (fun r1 => (Json.null, r1))
      else if c = 't' then (expectChars ['r', 'u', 'e'] r).map (fun r1 => (Json.bool true, r1))
      else if c = 'f' then (expectChars ['a', 'l', 's', 'e'] r).map (fun r1 => (Json.bool false, r1))
      else if c = '"' then (parseStr r).map (fun p => (Json.str p.1, p.2))
      else if c = '[' then
        match skipWs r with
        | [] => none
        | c2 :: r2 =>
          if c2 = ']' then some (Json.arr [], r2)
          else
            match parseListAux (fun s2 => parseVal f s2) f (c2 :: r2) with
            | some (vs, r3) => some (Json.arr vs, r3)
            | none => none
      else if c = '{' then
        match skipWs r with
        | [] => none
        | c2 :: r2 =>
          if c2 = '}' then some (Json.obj [], r2)
          else
            match parseMembersAux (fun s2 => parseVal f s2) f (c2 :: r2) with
            | some (ms, r3) => some (Json.obj ms, r3)
            | none => none
      else if c = '-' then
        match parseNat r with
        | some (n, r1) => some (Json.num (-(n : Int)), r1)
        | none => none
      else if c.isDigit then
        match parseNat (c :: r) with
        | some (n, r1) => some (Json.num (n : Int), r1)
        | none => none
      else none

/-- `json.loads`: a whole input parses as exactly one value, with only
whitespace allowed after it. -/
def loads (s : List Char) : Option Json :=
  match parseVal (s.length + 1) s with
  | some (v, rest) => if (skipWs rest).isEmpty then some v else none
  | none => none

/-- A failure of `forward_to_pipe`'s read loop: the backend closed the
connection (`recv` returned no data) or the 30-second socket timeout
fired (modelled as exhaustion of the available chunk stream). -/
inductive PipeErr where
  | closed
  | timeout

/-- Result of one `forward_to_pipe` call: a parsed response together
with the chunks not yet consumed from the socket, or an error. -/
inductive FwdResult where
  | ok (resp : Json) (rest : List (List Char))
  | err (e : PipeErr)

/-- `response_data.split(b'\n')[0]` when a newline is present. -/
def firstLine (s : List Char) : List Char := s.takeWhile (fun c => c ≠ '\n')

/-- The receive loop of `forward_to_pipe` (mcp-pipe-proxy.py lines
103–134): accumulate chunks into `response_data`; once a newline is
present try `json.loads` on the segment before the first newline; on
decode failure keep reading; an empty chunk means the pipe closed; an
exhausted chunk supply means the socket timeout fires. -/
def readLoop : List Char → List (List Char) → FwdResult
  | _, [] => .err .timeout
  | buf, chunk :: rest =>
    if chunk.isEmpty then .err .closed
    else
      let data := buf ++ chunk
      if data.contains '\n' then
        match loads (firstLine data) with
        | some r => .ok r rest
        | none => readLoop data rest
      else readLoop data rest

/-- The frame encoder: `request_line = json.dumps(request) + '\n'`. -/
def encode (m : Json) : List Char := dumps m ++ ['\n']

/-- `forward_to_pipe(client, request)`: the bytes written to the pipe
and the outcome of the read loop over the chunks the backend delivers. -/
def forward_to_pipe (request : Json) (chunks : List (List Char)) : List Char × FwdResult :=
  (encode request, readLoop [] chunks)

/-- Source line 29: `MAX_RECONNECT_ATTEMPTS = 5`. -/
def MAX_RECONNECT_ATTEMPTS : Nat := 5

/-- Source line 30: `INITIAL_RECONNECT_DELAY = 0.5` seconds. -/
def INITIAL_RECONNECT_DELAY : ℚ := 1 / 2

/-- Source line 31: `MAX_RECONNECT_DELAY = 10.0` seconds. -/
def MAX_RECONNECT_DELAY : ℚ := 10

/-- The delay slept at line 147:
`min(INITIAL_RECONNECT_DELAY * (2 ** (attempt - 1)), MAX_RECONNECT_DELAY)`. -/
def backoffDelay (attempt : Nat) : ℚ :=
  min (INITIAL_RECONNECT_DELAY * 2 ^ (attempt - 1)) MAX_RECONNECT_DELAY

/-- Observable side effects of connection management: a `time.sleep`
of a given duration, or one `connect_to_pipe` attempt. -/
inductive Event where
  | sleep (d : ℚ)
  | connAttempt

/-- The events of one `reconnect_with_backoff` call body at a given
`attempt` value: the backoff sleep (absent for `attempt = 0`) followed
by the connection attempt. -/
def evChunk (attempt : Nat) : List Event :=
  (if 0 < attempt then [Event.sleep (backoffDelay attempt)] else []) ++ [Event.connAttempt]

/-- `reconnect_with_backoff(pipe_path, attempt)` (source lines 140–156),
fuelled form.  `connects ci` is the outcome of the `ci`-th
`connect_to_pipe` call; the result is (connected, events, next `ci`).
The recursion stops as soon as `attempt` reaches the maximum, so fuel
`maxAttempts + 1` always suffices. -/
def reconnectAux (connects : Nat → Bool) (maxAttempts : Nat) :
    Nat → Nat → Nat → Bool × List Event × Nat
  | 0, _, ci => (false, [], ci)
  | fuel + 1, attempt, ci =>
    if maxAttempts ≤ attempt then (false, [], ci)
    else
      if connects ci then (true, evChunk attempt, ci + 1)
      else
        let res := reconnectAux connects maxAttempts fuel (attempt + 1) (ci + 1)
        (res.1, evChunk attempt ++ res.2.1, res.2.2)

/-- `reconnect_with_backoff(pipe_path, attempt)`, with the maximum
attempt count as a parameter (the source reads the module constant
`MAX_RECONNECT_ATTEMPTS`; the spec makes it configurable). -/
def reconnect_with_backoff (connects : Nat → Bool) (maxAttempts attempt ci : Nat) :
    Bool × List Event × Nat :=
  reconnectAux connects maxAttempts (maxAttempts + 1) attempt ci

/-- The claimed shape of a reconnection sequence starting at `start`:
`m` attempts, each preceded by its backoff sleep (none before attempt
number zero). -/
def backoffPattern : Nat → Nat → List Event
  | _, 0 => []
  | start, m + 1 => evChunk start ++ backoffPattern (start + 1) m

/-- The JSON-RPC identifier key. -/
def idKey : List Char := "id".data

/-- Python `request.get(k)` on a parsed JSON value: the value under the
last occurrence of key `k` (dict insertion keeps the last duplicate),
`None` when absent or when the value is not an object. -/
def jsonGet (j : Json) (k : List Char) : Json :=
  match j with
  | .obj kvs => kvs.foldl (fun acc kv => if kv.1 = k then kv.2 else acc) Json.null
  | _ => Json.null

/-- Python `'id' in request` for an object-shaped request. -/
def hasId (j : Json) : Bool :=
  match j with
  | .obj kvs => kvs.any (fun kv => kv.1 == idKey)
  | _ => false

/-- Python truthiness of a parsed JSON value, as tested by
`if response:` at source line 254. -/
def jsonTruthy : Json → Bool
  | .null => false
  | .bool b => b
  | .num i => i != 0
  | .str s => !s.isEmpty
  | .arr xs => !xs.isEmpty
  | .obj kvs => !kvs.isEmpty

/-- Error message of source line 189. -/
def msgInvalidJson : List Char := "Invalid JSON request".data

/-- Error message of source line 208. -/
def msgNotRunning : List Char :=
  "Camille server is not running. Please start it with: camille server start".data

/-- Error message of source line 205. -/
def msgPermDenied : List Char :=
  "Permission denied accessing Camille config. Run: ./fix-permissions.sh".data

/-- Error message of source line 257 (with `MAX_RECONNECT_ATTEMPTS`
interpolated). -/
def msgExhausted : List Char :=
  "Failed to communicate with Camille server after 5 attempts".data

/-- `send_error(message, id)` (source lines 66–77): the synthesized
JSON-RPC error frame. -/
def errFrame (message : List Char) (id : Json) : Json :=
  .obj [("jsonrpc".data, .str "2.0".data),
        ("error".data, .obj [("code".data, .num (-32603)), ("message".data, .str message)]),
        ("id".data, id)]

/-- Enough fuel for the request retry loop: `reconnect_attempts` grows
on all but at most one iteration per value, and is bounded by
`MAX_RECONNECT_ATTEMPTS`. -/
def REQUEST_FUEL : Nat := 2 * MAX_RECONNECT_ATTEMPTS + 2

/-- The request retry loop of `main` (source lines 227–251):
`while reconnect_attempts < MAX_RECONNECT_ATTEMPTS:` — if there is no
client, call `reconnect_with_backoff(pipe_path, reconnect_attempts)`
(counting failure as one more attempt); with a client, try
`forward_to_pipe`: a returned response breaks the loop, an exception
drops the client and counts one attempt.  `fwd fi` is the outcome of
the `fi`-th forwarding attempt (`none` = exception).  Result:
(`response`, final client state, events). -/
def requestLoop (connects : Nat → Bool) (fwd : Nat → Option Json) :
    Nat → Bool → Nat → Nat → Nat → Option Json × Bool × List Event
  | 0, client, _, _, _ => (none, client, [])
  | fuel + 1, client, ra, ci, fi =>
    if MAX_RECONNECT_ATTEMPTS ≤ ra then (none, client, [])
    else if client then
      match fwd fi with
      | some r => (some r, true, [])
      | none => requestLoop connects fwd fuel false (ra + 1) ci (fi + 1)
    else
      let rc := reconnect_with_backoff connects MAX_RECONNECT_ATTEMPTS ra ci
      if rc.1 then
        let res := requestLoop connects fwd fuel true ra rc.2.2 fi
        (res.1, res.2.1, rc.2.1 ++ res.2.2)
      else
        let res := requestLoop connects fwd fuel false (ra + 1) rc.2.2 fi
        (res.1, res.2.1, rc.2.1 ++ res.2.2)

/-- Source lines 253–257: `if response: send_response(response) else:
send_error(exhaustion-message, request.get('id'))`.  Note the Python
truthiness test: a falsy response is treated like no response. -/
def requestFrame (request : Json) (resp : Option Json) : Json :=
  match resp with
  | some r => if jsonTruthy r then r else errFrame msgExhausted (jsonGet request idKey)
  | none => errFrame msgExhausted (jsonGet request idKey)

/-- Filesystem state consulted by `main`: whether the socket path
exists (line 193), and whether `~/.camille/config.json` exists and is
readable (lines 197–204). -/
structure Env where
  pipeExists : Bool
  configExists : Bool
  configReadable : Bool

/-- The nondeterministic environment for processing one inbound line:
filesystem state, connection attempt outcomes, forwarding attempt
outcomes, and whether a notification `sendall` succeeds. -/
structure LineWorld where
  env : Env
  connects : Nat → Bool
  fwd : Nat → Option Json
  notifOK : Bool

/-- What processing one inbound line produces: the frames written to
stdout, the client state carried to the next line, and the connection
events performed. -/
structure LineResult where
  frames : List Json
  client : Bool
  events : List Event

/-- One iteration of `main`'s input loop (source lines 183–257): parse
the stripped line; on parse failure send the invalid-JSON error; if the
socket path is absent send the not-running (or config-permission)
error; otherwise classify by presence of `'id'`: notifications are sent
(connecting first if needed) with no frame written upstream,
and requests run the retry loop and always produce exactly one frame. -/
def processLine (w : LineWorld) (line : List Char) (client : Bool) : LineResult :=
  match loads (strip line) with
  | none => ⟨[errFrame msgInvalidJson Json.null], client, []⟩
  | some request =>
    if w.env.pipeExists = false then
      if w.env.configExists && !w.env.configReadable then
        ⟨[errFrame msgPermDenied (jsonGet request idKey)], client, []⟩
      else
        ⟨[errFrame msgNotRunning (jsonGet request idKey)], client, []⟩
    else if hasId request = false then
      let rc : Bool × List Event × Nat :=
        if client then (true, [], 0)
        else reconnect_with_backoff w.connects MAX_RECONNECT_ATTEMPTS 0 0
      if rc.1 then ⟨[], w.notifOK, rc.2.1⟩
      else ⟨[], false, rc.2.1⟩
    else
      let res := requestLoop w.connects w.fwd REQUEST_FUEL client 0 0 0
      ⟨[requestFrame request res.1], res.2.1, res.2.2⟩

/-- `main`'s input loop over a whole run: the frames written to stdout,
in order, threading the shared `client` state across lines. -/
def mainLoop : List (List Char × LineWorld) → Bool → List Json
  | [], _ => []
  | (line, w) :: rest, client =>
    let res := processLine w line client
    res.frames ++ mainLoop rest res.client

/-- `send_response(obj)` (source lines 51–64): the bytes
`print(json.dumps(obj))` writes to stdout — the serialized frame plus
one newline, flushed as a unit. -/
def send_response (obj : Json) : List Char := dumps obj ++ ['\n']

/-- The byte stream a list of frames produces on stdout. -/
def renderFrames : List Json → List Char
  | [] => []
  | f :: fs => send_response f ++ renderFrames fs

/-- All bytes `main` writes to stdout over a run. -/
def mainBytes (input : List (List Char × LineWorld)) (client : Bool) : List Char :=
  renderFrames (mainLoop input client)

/-! ### Digit and hex lemmas -/

theorem digitChar_isDigit (n : Nat) (h : n < 10) : (digitChar n).isDigit = true := by
  interval_cases n <;> decide

theorem digitChar_toNat (n : Nat) (h : n < 10) : (digitChar n).toNat = 48 + n := by
  interval_cases n <;> decide

theorem hexVal_hexChar (d : Nat) (h : d < 16) : hexVal (hexChar d) = some d := by
  interval_cases d <;> decide

theorem natDigitsAux_zero (n : Nat) : natDigitsAux 0 n = [] := rfl

theorem natDigitsAux_succ (fuel n : Nat) :
    natDigitsAux (fuel + 1) n =
      if n < 10 then [digitChar n] else natDigitsAux fuel (n / 10) ++ [digitChar (n % 10)] := rfl

theorem digitsVal_nil (acc : Nat) : digitsVal acc [] = acc := rfl

theorem digitsVal_cons (acc : Nat) (c : Char) (cs : List Char) :
    digitsVal acc (c :: cs) = digitsVal (acc * 10 + (c.toNat - 48)) cs := rfl

theorem digitsVal_append (xs ys : List Char) :
    ∀ acc, digitsVal acc (xs ++ ys) = digitsVal (digitsVal acc xs) ys := by
  induction xs with
  | nil => intro acc; rfl
  | cons c cs ih => intro acc; exact ih _

theorem natDigitsAux_spec (fuel : Nat) :
    ∀ n, n < 10 ^ fuel →
      ∀ acc, digitsVal acc (natDigitsAux fuel n) =
        acc * 10 ^ (natDigitsAux fuel n).length + n := by
  induction fuel with
  | zero =>
    intro n hn acc
    have hn0 : n = 0 := by simpa [Nat.lt_one_iff] using hn
    subst hn0
    rw [natDigitsAux_zero, digitsVal_nil]
    simp
  | succ fuel ih =>
    intro n hn acc
    by_cases h10 : n < 10
    · rw [natDigitsAux_succ, if_pos h10, digitsVal_cons, digitsVal_nil,
        digitChar_toNat n h10]
      simp only [List.length_singleton, pow_one]
      omega
    · have hdiv : n / 10 < 10 ^ fuel := by
        have hlt : n < 10 ^ fuel * 10 := by
          calc n < 10 ^ (fuel + 1) := hn
          _ = 10 ^ fuel * 10 := by rw [pow_succ]
        omega
      rw [natDigitsAux_succ, if_neg h10, digitsVal_append, ih (n / 10) hdiv acc,
        digitsVal_cons, digitsVal_nil, digitChar_toNat (n % 10) (Nat.mod_lt n (by norm_num))]
      simp only [List.length_append, List.length_singleton]
      rw [pow_succ]
      have h48 : 48 + n % 10 - 48 = n % 10 := by omega
      rw [h48]
      have hdm := Nat.div_add_mod n 10
      set L := (natDigitsAux fuel (n / 10)).length
      ring_nf
      omega

theorem natDigits_val (n : Nat) : digitsVal 0 (natDigits n) = n := by
  have hfuel : n < 10 ^ (n + 1) := by
    calc n < 10 ^ n := Nat.lt_pow_self (by norm_num) n
    _ ≤ 10 ^ (n + 1) := Nat.pow_le_pow_right (by norm_num) (by omega)
  simpa using natDigitsAux_spec (n + 1) n hfuel 0

theorem natDigitsAux_digits (fuel : Nat) :
    ∀ n c, c ∈ natDigitsAux fuel n → c.isDigit = true := by
  induction fuel with
  | zero => intro n c hc; simp [natDigitsAux] at hc
  | succ fuel ih =>
    intro n c hc
    by_cases h10 : n < 10
    · simp only [natDigitsAux, if_pos h10, List.mem_singleton] at hc
      subst hc; exact digitChar_isDigit n h10
    · simp only [natDigitsAux, if_neg h10, List.mem_append, List.mem_singleton] at hc
      rcases hc with hc | hc
      · exact ih _ _ hc
      · subst hc; exact digitChar_isDigit _ (Nat.mod_lt n (by norm_num))

theorem natDigits_digits (n : Nat) (c : Char) (hc : c ∈ natDigits n) : c.isDigit = true :=
  natDigitsAux_digits (n + 1) n c hc

theorem natDigitsAux_ne_nil (fuel n : Nat) : natDigitsAux (fuel + 1) n ≠ [] := by
  by_cases h10 : n < 10 <;> simp [natDigitsAux, h10]

theorem natDigits_ne_nil (n : Nat) : natDigits n ≠ [] := natDigitsAux_ne_nil n n

/-! ### Span lemmas -/

/-- The head of `s`, if any, falsifies `p`. -/
def headNot (p : Char → Bool) : List Char → Prop
  | [] => True
  | c :: _ => p c = false

theorem takeWhile_append_exact (p : Char → Bool) (xs : List Char) :
    ∀ ys, (∀ x ∈ xs, p x = true) → headNot p ys → (xs ++ ys).takeWhile p = xs := by
  induction xs with
  | nil =>
    intro ys _ hys
    cases ys with
    | nil => rfl
    | cons c t => simp only [List.nil_append, List.takeWhile]; rw [hys]
  | cons x xs ih =>
    intro ys hxs hys
    have hx : p x = true := hxs x (by simp)
    simp only [List.cons_append, List.takeWhile, hx]
    rw [show xs.append ys = xs ++ ys from rfl, ih ys (fun a ha => hxs a (by simp [ha])) hys]

theorem dropWhile_append_exact (p : Char → Bool) (xs : List Char) :
    ∀ ys, (∀ x ∈ xs, p x = true) → headNot p ys → (xs ++ ys).dropWhile p = ys := by
  induction xs with
  | nil =>
    intro ys _ hys
    cases ys with
    | nil => rfl
    | cons c t => simp only [List.nil_append, List.dropWhile]; rw [hys]
  | cons x xs ih =>
    intro ys hxs hys
    have hx : p x = true := hxs x (by simp)
    simp only [List.cons_append, List.dropWhile, hx]
    exact ih ys (fun a ha => hxs a (by simp [ha])) hys

theorem parseNat_natDigits (n : Nat) (rest : List Char) (hrest : headNot Char.isDigit rest) :
    parseNat (natDigits n ++ rest) = some (n, rest) := by
  unfold parseNat
  rw [takeWhile_append_exact _ _ _ (natDigits_digits n) hrest,
    dropWhile_append_exact _ _ _ (natDigits_digits n) hrest]
  have hne : (natDigits n).isEmpty = false := by
    cases h : natDigits n with
    | nil => exact absurd h (natDigits_ne_nil n)
    | cons a t => rfl
  rw [hne]
  simp only [Bool.false_eq_true, if_false, natDigits_val]

/-! ### String escape round trip -/

theorem parseStr_quote (r : List Char) : parseStr ('"' :: r) = some ([], r) := by
  conv_lhs => rw [parseStr.eq_def]
  exact rfl

theorem parseStr_esc_quote (r : List Char) :
    parseStr ('\\' :: '"' :: r) = (parseStr r).map (fun p => ('"' :: p.1, p.2)) := by
  conv_lhs => rw [parseStr.eq_def]
  exact rfl

theorem parseStr_esc_backslash (r : List Char) :
    parseStr ('\\' :: '\\' :: r) = (parseStr r).map (fun p => ('\\' :: p.1, p.2)) := by
  conv_lhs => rw [parseStr.eq_def]
  exact rfl

theorem parseStr_esc_n (r : List Char) :
    parseStr ('\\' :: 'n' :: r) = (parseStr r).map (fun p => ('\n' :: p.1, p.2)) := by
  conv_lhs => rw [parseStr.eq_def]
  exact rfl

theorem parseStr_esc_r (r : List Char) :
    parseStr ('\\' :: 'r' :: r) = (parseStr r).map (fun p => ('\r' :: p.1, p.2)) := by
  conv_lhs => rw [parseStr.eq_def]
  exact rfl

theorem parseStr_esc_t (r : List Char) :
    parseStr ('\\' :: 't' :: r) = (parseStr r).map (fun p => ('\t' :: p.1, p.2)) := by
  conv_lhs => rw [parseStr.eq_def]
  exact rfl

theorem parseStr_esc_b (r : List Char) :
    parseStr ('\\' :: 'b' :: r) = (parseStr r).map (fun p => (Char.ofNat 8 :: p.1, p.2)) := by
  conv_lhs => rw [parseStr.eq_def]
  exact rfl

theorem parseStr_esc_f (r : List Char) :
    parseStr ('\\' :: 'f' :: r) = (parseStr r).map (fun p => (Char.ofNat 12 :: p.1, p.2)) := by
  conv_lhs => rw [parseStr.eq_def]
  exact rfl

theorem parseStr_esc_u (a b : Char) (r : List Char) :
    parseStr ('\\' :: 'u' :: '0' :: '0' :: a :: b :: r) =
      (match hexVal a with
       | none => none
       | some d3 =>
         match hexVal b with
         | none => none
         | some d4 =>
           (parseStr r).map
             (fun p => (Char.ofNat (((0 * 16 + 0) * 16 + d3) * 16 + d4) :: p.1, p.2))) := by
  conv_lhs => rw [parseStr.eq_def]
  exact rfl

theorem parseStr_other (c : Char) (r : List Char) (h1 : ¬ c = '"') (h2 : ¬ c = '\\')
    (h3 : ¬ c.toNat < 32) :
    parseStr (c :: r) = (parseStr r).map (fun p => (c :: p.1, p.2)) := by
  conv_lhs => rw [parseStr.eq_def]
  split
  · rename_i heq
    exact absurd heq (List.cons_ne_nil c r)
  · rename_i c2 r2 heq
    injection heq with hc hr
    subst hc; subst hr
    rw [if_neg h1, if_neg h2, if_neg h3]

theorem parseStr_escStr (s : List Char) :
    ∀ rest, parseStr (escStr s ++ '"' :: rest) = some (s, rest) := by
  induction s with
  | nil => intro rest; exact parseStr_quote rest
  | cons c cs ih =>
    intro rest
    rw [show escStr (c :: cs) = escChar c ++ escStr cs from rfl, List.append_assoc]
    set T := escStr cs ++ '"' :: rest with hT
    have hmap : ∀ ch : Char,
        (parseStr T).map (fun p => (ch :: p.1, p.2)) = some (ch :: cs, rest) := by
      intro ch; rw [hT, ih rest]; rfl
    unfold escChar
    split_ifs with h1 h2 h3 h4 h5 h6 h7 h8
    · subst h1
      rw [show (['\\', '"'] : List Char) ++ T = '\\' :: '"' :: T from rfl, parseStr_esc_quote]
      exact hmap '"'
    · subst h2
      rw [show (['\\', '\\'] : List Char) ++ T = '\\' :: '\\' :: T from rfl,
        parseStr_esc_backslash]
      exact hmap '\\'
    · subst h3
      rw [show (['\\', 'n'] : List Char) ++ T = '\\' :: 'n' :: T from rfl, parseStr_esc_n]
      exact hmap '\n'
    · subst h4
      rw [show (['\\', 'r'] : List Char) ++ T = '\\' :: 'r' :: T from rfl, parseStr_esc_r]
      exact hmap '\r'
    · subst h5
      rw [show (['\\', 't'] : List Char) ++ T = '\\' :: 't' :: T from rfl, parseStr_esc_t]
      exact hmap '\t'
    · subst h6
      rw [show (['\\', 'b'] : List Char) ++ T = '\\' :: 'b' :: T from rfl, parseStr_esc_b]
      exact hmap (Char.ofNat 8)
    · subst h7
      rw [show (['\\', 'f'] : List Char) ++ T = '\\' :: 'f' :: T from rfl, parseStr_esc_f]
      exact hmap (Char.ofNat 12)
    · rw [show (['\\', 'u', '0', '0', hexChar (c.toNat / 16), hexChar (c.toNat % 16)] :
          List Char) ++ T =
          '\\' :: 'u' :: '0' :: '0' :: hexChar (c.toNat / 16) :: hexChar (c.toNat % 16) :: T
          from rfl]
      rw [parseStr_esc_u, hexVal_hexChar (c.toNat / 16) (by omega),
        hexVal_hexChar (c.toNat % 16) (by omega)]
      show (parseStr T).map
          (fun p => (Char.ofNat (((0 * 16 + 0) * 16 + c.toNat / 16) * 16 + c.toNat % 16)
            :: p.1, p.2)) = some (c :: cs, rest)
      have harith : ((0 * 16 + 0) * 16 + c.toNat / 16) * 16 + c.toNat % 16 = c.toNat := by
        omega
      rw [harith, Char.ofNat_toNat]
      exact hmap c
    · rw [show ([c] : List Char) ++ T = c :: T from rfl, parseStr_other c T h1 h2 h8]
      exact hmap c


/-! ### Whitespace and head-character lemmas -/

theorem skipWs_cons_neg (c : Char) (t : List Char) (h : isWsChar c = false) :
    skipWs (c :: t) = c :: t := by
  simp [skipWs, List.dropWhile, h]

theorem skipWs_space (t : List Char) : skipWs (' ' :: t) = skipWs t := by
  simp [skipWs, List.dropWhile, isWsChar]

theorem isDigit_ne (c d : Char) (h : c.isDigit = true) (hd : d.isDigit = false) : ¬ c = d := by
  intro he; subst he; rw [h] at hd; cases hd

theorem isDigit_not_ws (c : Char) (h : c.isDigit = true) : isWsChar c = false := by
  simp only [isWsChar, Bool.or_eq_false_iff, decide_eq_false_iff_not]
  exact ⟨⟨⟨isDigit_ne c ' ' h (by decide), isDigit_ne c '\t' h (by decide)⟩,
    isDigit_ne c '\n' h (by decide)⟩, isDigit_ne c '\r' h (by decide)⟩

/-- Every serialized value starts with an unmistakable character: not
whitespace, not a closing bracket or brace, not a comma. -/
theorem dumps_head_props (v : Json) : ∃ c t, dumps v = c :: t ∧ isWsChar c = false ∧
    ¬ c = ']' ∧ ¬ c = '}' := by
  have hprops : ∀ c : Char, isWsChar c = false → ¬ c = ']' → ¬ c = '}' →
      isWsChar c = false ∧ ¬ c = ']' ∧ ¬ c = '}' := fun _ a b c => ⟨a, b, c⟩
  cases v with
  | null => exact ⟨'n', _, rfl, hprops _ (by decide) (by decide) (by decide)⟩
  | bool b =>
    cases b with
    | true => exact ⟨'t', _, rfl, hprops _ (by decide) (by decide) (by decide)⟩
    | false => exact ⟨'f', _, rfl, hprops _ (by decide) (by decide) (by decide)⟩
  | num i =>
    by_cases hi : i < 0
    · refine ⟨'-', natDigits i.natAbs, ?_, hprops _ (by decide) (by decide) (by decide)⟩
      rw [show dumps (.num i) = intChars i from rfl, intChars, if_pos hi]
    · cases hC : natDigits i.toNat with
      | nil => exact absurd hC (natDigits_ne_nil _)
      | cons c t =>
        have hc : c.isDigit = true := natDigits_digits i.toNat c (by rw [hC]; simp)
        refine ⟨c, t, ?_, hprops _ (isDigit_not_ws c hc) (isDigit_ne c ']' hc (by decide))
          (isDigit_ne c '}' hc (by decide))⟩
        rw [show dumps (.num i) = intChars i from rfl, intChars, if_neg hi, hC]
  | str s => exact ⟨'"', _, rfl, hprops _ (by decide) (by decide) (by decide)⟩
  | arr xs =>
    cases xs with
    | nil => exact ⟨'[', _, rfl, hprops _ (by decide) (by decide) (by decide)⟩
    | cons x xs => exact ⟨'[', _, rfl, hprops _ (by decide) (by decide) (by decide)⟩
  | obj ms =>
    cases ms with
    | nil => exact ⟨'{', _, rfl, hprops _ (by decide) (by decide) (by decide)⟩
    | cons m ms =>
      obtain ⟨k, v⟩ := m
      exact ⟨'{', _, rfl, hprops _ (by decide) (by decide) (by decide)⟩

theorem dumps_len_pos (v : Json) : 1 ≤ (dumps v).length := by
  obtain ⟨c, t, h, -, -, -⟩ := dumps_head_props v
  rw [h]; simp

/-! ### Length bounds for the fuel accounting -/

theorem dumpsArrTail_len (xs : List Json) :
    3 * xs.length ≤ (dumpsArrTail xs).length ∧
      ∀ x ∈ xs, (dumps x).length ≤ (dumpsArrTail xs).length := by
  induction xs with
  | nil => simp [dumpsArrTail]
  | cons y ys ih =>
    constructor
    · have hy := dumps_len_pos y
      simp only [dumpsArrTail, List.length_cons, List.length_append]
      omega
    · intro x hx
      rcases List.mem_cons.mp hx with hx | hx
      · subst hx
        simp only [dumpsArrTail, List.length_cons, List.length_append]
        omega
      · have := ih.2 x hx
        simp only [dumpsArrTail, List.length_cons, List.length_append]
        omega

theorem dumpsObjTail_len (ms : List (List Char × Json)) :
    3 * ms.length ≤ (dumpsObjTail ms).length ∧
      ∀ m ∈ ms, (dumps m.2).length ≤ (dumpsObjTail ms).length := by
  induction ms with
  | nil => simp [dumpsObjTail]
  | cons p ps ih =>
    obtain ⟨k, v⟩ := p
    constructor
    · have hv := dumps_len_pos v
      simp only [dumpsObjTail, List.length_cons, List.length_append]
      omega
    · intro m hm
      rcases List.mem_cons.mp hm with hm | hm
      · subst hm
        simp only [dumpsObjTail, List.length_cons, List.length_append]
        omega
      · have := ih.2 m hm
        simp only [dumpsObjTail, List.length_cons, List.length_append]
        omega

/-! ### Leading-space absorption for the fuelled parsers -/

theorem parseVal_ws (f : Nat) (t : List Char) : parseVal f (' ' :: t) = parseVal f t := by
  cases f with
  | zero => rfl
  | succ f => simp only [parseVal, skipWs_space]

theorem parseListAux_ws (pv : List Char → Option (Json × List Char))
    (hpvws : ∀ t, pv (' ' :: t) = pv t) (g : Nat) (t : List Char) :
    parseListAux pv g (' ' :: t) = parseListAux pv g t := by
  cases g with
  | zero => rfl
  | succ g => simp only [parseListAux, hpvws]

theorem parseMembersAux_ws (pv : List Char → Option (Json × List Char)) (g : Nat)
    (t : List Char) :
    parseMembersAux pv g (' ' :: t) = parseMembersAux pv g t := by
  cases g with
  | zero => rfl
  | succ g => simp only [parseMembersAux, skipWs_space]

/-! ### Round trip of the fuelled parsers over serialized output -/

theorem headNot_cons (p : Char → Bool) (c : Char) (t : List Char) (h : p c = false) :
    headNot p (c :: t) := h

theorem parseListAux_cons (pv : List Char → Option (Json × List Char)) (g : Nat)
    (s : List Char) (v : Json) (r : List Char) (c : Char) (r1 : List Char)
    (hpv : pv s = some (v, r)) (hr : skipWs r = c :: r1) :
    parseListAux pv (g + 1) s =
      (if c = ',' then
         match parseListAux pv g r1 with
         | some (vs, r2) => some (v :: vs, r2)
         | none => none
       else if c = ']' then some ([v], r1)
       else none) := by
  simp only [parseListAux, hpv, hr]

theorem parseListAux_dumps (pv : List Char → Option (Json × List Char))
    (hpvws : ∀ t, pv (' ' :: t) = pv t) :
    ∀ (xs : List Json), xs ≠ [] →
      ∀ (g : Nat) (rest : List Char), xs.length ≤ g →
      (∀ x ∈ xs, ∀ r2, headNot Char.isDigit r2 → pv (dumps x ++ r2) = some (x, r2)) →
      parseListAux pv g (dumpsElems xs ++ ']' :: rest) = some (xs, rest) := by
  intro xs
  induction xs with
  | nil => intro hne; exact absurd rfl hne
  | cons x xs ih =>
    intro _ g rest hlen hpv
    obtain ⟨g1, rfl⟩ : ∃ g1, g = g1 + 1 := ⟨g - 1, by simp at hlen; omega⟩
    cases xs with
    | nil =>
      have hin : dumpsElems [x] ++ ']' :: rest = dumps x ++ ']' :: rest := by
        simp [dumpsElems, dumpsArrTail]
      rw [hin, parseListAux_cons pv g1 _ x (']' :: rest) ']' rest
        (hpv x (by simp) _ (headNot_cons _ _ _ (by decide)))
        (skipWs_cons_neg ']' rest (by decide))]
      exact rfl
    | cons y ys =>
      have hin : dumpsElems (x :: y :: ys) ++ ']' :: rest
          = dumps x ++ (',' :: ' ' :: (dumpsElems (y :: ys) ++ ']' :: rest)) := by
        simp [dumpsElems, dumpsArrTail]
      rw [hin, parseListAux_cons pv g1 _ x _ ','
          (' ' :: (dumpsElems (y :: ys) ++ ']' :: rest))
          (hpv x (by simp) _ (headNot_cons _ _ _ (by decide)))
          (skipWs_cons_neg ',' _ (by decide)),
        parseListAux_ws pv hpvws g1 _,
        ih (by simp) g1 rest (by simp only [List.length_cons] at hlen ⊢; omega)
          (fun a ha r2 hr2 => hpv a (by simp [ha]) r2 hr2)]
      exact rfl

theorem parseMembersAux_member (pv : List Char → Option (Json × List Char)) (g : Nat)
    (s R : List Char) (K : List Char) (R1 r2 : List Char) (v : Json) (r3 : List Char)
    (c4 : Char) (r4 : List Char)
    (hs : skipWs s = '"' :: R)
    (hkey : parseStr R = some (K, R1))
    (h2 : skipWs R1 = ':' :: r2)
    (hv : pv r2 = some (v, r3))
    (h4 : skipWs r3 = c4 :: r4) :
    parseMembersAux pv (g + 1) s =
      (if c4 = ',' then
        match parseMembersAux pv g r4 with
        | some (ms, r5) => some ((K, v) :: ms, r5)
        | none => none
      else if c4 = '}' then some ([(K, v)], r4)
      else none) := by
  simp only [parseMembersAux, hs, hkey, h2, hv, h4, eq_self_iff_true, if_true]

theorem parseMembersAux_dumps (pv : List Char → Option (Json × List Char))
    (hpvws : ∀ t, pv (' ' :: t) = pv t) :
    ∀ (ms : List (List Char × Json)), ms ≠ [] →
      ∀ (g : Nat) (rest : List Char), ms.length ≤ g →
      (∀ m ∈ ms, ∀ r2, headNot Char.isDigit r2 → pv (dumps m.2 ++ r2) = some (m.2, r2)) →
      parseMembersAux pv g (dumpsMembers ms ++ '}' :: rest) = some (ms, rest) := by
  intro ms
  induction ms with
  | nil => intro hne; exact absurd rfl hne
  | cons m ms ih =>
    obtain ⟨k, v⟩ := m
    intro _ g rest hlen hpv
    obtain ⟨g1, rfl⟩ : ∃ g1, g = g1 + 1 := ⟨g - 1, by simp at hlen; omega⟩
    cases ms with
    | nil =>
      have hin : dumpsMembers [(k, v)] ++ '}' :: rest
          = '"' :: (escStr k ++ '"' :: (':' :: (' ' :: (dumps v ++ '}' :: rest)))) := by
        simp [dumpsMembers, dumpsMember, dumpsObjTail]
      rw [hin, parseMembersAux_member pv g1 _ _ k _ _ v _ '}' rest
        (skipWs_cons_neg '"' _ (by decide))
        (parseStr_escStr k _)
        (skipWs_cons_neg ':' _ (by decide))
        (by rw [hpvws, hpv (k, v) (by simp) _ (headNot_cons _ _ _ (by decide))])
        (skipWs_cons_neg '}' _ (by decide))]
      exact rfl
    | cons m2 ms2 =>
      have hin : dumpsMembers ((k, v) :: m2 :: ms2) ++ '}' :: rest
          = '"' :: (escStr k ++ '"' :: (':' :: (' ' ::
              (dumps v ++ ',' :: ' ' :: (dumpsMembers (m2 :: ms2) ++ '}' :: rest))))) := by
        simp [dumpsMembers, dumpsMember, dumpsObjTail]
      rw [hin, parseMembersAux_member pv g1 _ _ k _ _ v _ ','
          (' ' :: (dumpsMembers (m2 :: ms2) ++ '}' :: rest))
          (skipWs_cons_neg '"' _ (by decide))
          (parseStr_escStr k _)
          (skipWs_cons_neg ':' _ (by decide))
          (by rw [hpvws, hpv (k, v) (by simp) _ (headNot_cons _ _ _ (by decide))])
          (skipWs_cons_neg ',' _ (by decide)),
        parseMembersAux_ws pv g1 _,
        ih (by simp) g1 rest (by simp only [List.length_cons] at hlen ⊢; omega)
          (fun a ha r5 hr5 => hpv a (by simp [ha]) r5 hr5)]
      exact rfl

theorem parseVal_step (f : Nat) (s : List Char) (c : Char) (r : List Char)
    (h : skipWs s = c :: r) :
    parseVal (f + 1) s =
      (if c = 'n' then (expectChars ['u', 'l', 'l'] r).map (fun r1 => (Json.null, r1))
       else if c = 't' then (expectChars ['r', 'u', 'e'] r).map (fun r1 => (Json.bool true, r1))
       else if c = 'f' then
         (expectChars ['a', 'l', 's', 'e'] r).map (fun r1 => (Json.bool false, r1))
       else if c = '"' then (parseStr r).map (fun p => (Json.str p.1, p.2))
       else if c = '[' then
         match skipWs r with
         | [] => none
         | c2 :: r2 =>
           if c2 = ']' then some (Json.arr [], r2)
           else
             match parseListAux (fun s2 => parseVal f s2) f (c2 :: r2) with
             | some (vs, r3) => some (Json.arr vs, r3)
             | none => none
       else if c = '{' then
         match skipWs r with
         | [] => none
         | c2 :: r2 =>
           if c2 = '}' then some (Json.obj [], r2)
           else
             match parseMembersAux (fun s2 => parseVal f s2) f (c2 :: r2) with
             | some (ms, r3) => some (Json.obj ms, r3)
             | none => none
       else if c = '-' then
         match parseNat r with
         | some (n, r1) => some (Json.num (-(n : Int)), r1)
         | none => none
       else if c.isDigit then
         match parseNat (c :: r) with
         | some (n, r1) => some (Json.num (n : Int), r1)
         | none => none
       else none) := by
  simp only [parseVal, h]

theorem parseVal_arr_step (f : Nat) (s r : List Char) (c2 : Char) (r2 : List Char)
    (h : skipWs s = '[' :: r) (h2 : skipWs r = c2 :: r2) (hne : ¬ c2 = ']') :
    parseVal (f + 1) s =
      (match parseListAux (fun s2 => parseVal f s2) f (c2 :: r2) with
       | some (vs, r3) => some (Json.arr vs, r3)
       | none => none) := by
  rw [parseVal_step f s '[' r h]
  rw [if_neg (by decide : ¬('[' : Char) = 'n'), if_neg (by decide : ¬('[' : Char) = 't'),
    if_neg (by decide : ¬('[' : Char) = 'f'), if_neg (by decide : ¬('[' : Char) = '"'),
    if_pos (rfl : ('[' : Char) = '['), h2]
  show (if c2 = ']' then some (Json.arr [], r2)
        else match parseListAux (fun s2 => parseVal f s2) f (c2 :: r2) with
          | some (vs, r3) => some (Json.arr vs, r3)
          | none => none) = _
  rw [if_neg hne]

theorem parseVal_obj_step (f : Nat) (s r : List Char) (c2 : Char) (r2 : List Char)
    (h : skipWs s = '{' :: r) (h2 : skipWs r = c2 :: r2) (hne : ¬ c2 = '}') :
    parseVal (f + 1) s =
      (match parseMembersAux (fun s2 => parseVal f s2) f (c2 :: r2) with
       | some (ms, r3) => some (Json.obj ms, r3)
       | none => none) := by
  rw [parseVal_step f s '{' r h]
  rw [if_neg (by decide : ¬('{' : Char) = 'n'), if_neg (by decide : ¬('{' : Char) = 't'),
    if_neg (by decide : ¬('{' : Char) = 'f'), if_neg (by decide : ¬('{' : Char) = '"'),
    if_neg (by decide : ¬('{' : Char) = '['), if_pos (rfl : ('{' : Char) = '{'), h2]
  show (if c2 = '}' then some (Json.obj [], r2)
        else match parseMembersAux (fun s2 => parseVal f s2) f (c2 :: r2) with
          | some (ms, r3) => some (Json.obj ms, r3)
          | none => none) = _
  rw [if_neg hne]

/-- The parser inverts the serializer: `parseVal` with fuel at least the
length of the serialized form consumes exactly `dumps v` and returns `v`,
for any following input that does not extend a trailing number. -/
theorem parseVal_dumps (v : Json) : ∀ (f : Nat) (rest : List Char),
    (dumps v).length ≤ f → headNot Char.isDigit rest →
    parseVal f (dumps v ++ rest) = some (v, rest) := by
  cases v with
  | null =>
    intro f rest hf hrest
    obtain ⟨f1, rfl⟩ : ∃ f1, f = f1 + 1 := ⟨f - 1, by have := dumps_len_pos Json.null; omega⟩
    rw [show dumps Json.null ++ rest = 'n' :: ('u' :: 'l' :: 'l' :: rest) from rfl,
      parseVal_step f1 _ 'n' ('u' :: 'l' :: 'l' :: rest) (skipWs_cons_neg _ _ (by decide))]
    exact rfl
  | bool b =>
    intro f rest hf hrest
    obtain ⟨f1, rfl⟩ : ∃ f1, f = f1 + 1 :=
      ⟨f - 1, by have := dumps_len_pos (Json.bool b); omega⟩
    cases b with
    | true =>
      rw [show dumps (Json.bool true) ++ rest = 't' :: ('r' :: 'u' :: 'e' :: rest) from rfl,
        parseVal_step f1 _ 't' ('r' :: 'u' :: 'e' :: rest) (skipWs_cons_neg _ _ (by decide))]
      exact rfl
    | false =>
      rw [show dumps (Json.bool false) ++ rest
          = 'f' :: ('a' :: 'l' :: 's' :: 'e' :: rest) from rfl,
        parseVal_step f1 _ 'f' ('a' :: 'l' :: 's' :: 'e' :: rest)
          (skipWs_cons_neg _ _ (by decide))]
      exact rfl
  | num i =>
    intro f rest hf hrest
    obtain ⟨f1, rfl⟩ : ∃ f1, f = f1 + 1 :=
      ⟨f - 1, by have := dumps_len_pos (Json.num i); omega⟩
    by_cases hi : i < 0
    · have hd : dumps (Json.num i) = '-' :: natDigits i.natAbs := by
        rw [show dumps (Json.num i) = intChars i from rfl, intChars, if_pos hi]
      rw [hd, show ('-' :: natDigits i.natAbs) ++ rest
          = '-' :: (natDigits i.natAbs ++ rest) from rfl,
        parseVal_step f1 _ '-' (natDigits i.natAbs ++ rest) (skipWs_cons_neg _ _ (by decide)),
        if_neg (by decide : ¬('-' : Char) = 'n'), if_neg (by decide : ¬('-' : Char) = 't'),
        if_neg (by decide : ¬('-' : Char) = 'f'), if_neg (by decide : ¬('-' : Char) = '"'),
        if_neg (by decide : ¬('-' : Char) = '['), if_neg (by decide : ¬('-' : Char) = '{'),
        if_pos (rfl : ('-' : Char) = '-'), parseNat_natDigits i.natAbs rest hrest]
      show some (Json.num (-(i.natAbs : Int)), rest) = some (Json.num i, rest)
      rw [show -(i.natAbs : Int) = i from by omega]
    · cases hC : natDigits i.toNat with
      | nil => exact absurd hC (natDigits_ne_nil _)
      | cons c ds =>
        have hc : c.isDigit = true := natDigits_digits i.toNat c (by rw [hC]; simp)
        have hd : dumps (Json.num i) = c :: ds := by
          rw [show dumps (Json.num i) = intChars i from rfl, intChars, if_neg hi, hC]
        rw [hd, show (c :: ds) ++ rest = c :: (ds ++ rest) from rfl,
          parseVal_step f1 _ c (ds ++ rest) (skipWs_cons_neg _ _ (isDigit_not_ws c hc)),
          if_neg (isDigit_ne c 'n' hc (by decide)), if_neg (isDigit_ne c 't' hc (by decide)),
          if_neg (isDigit_ne c 'f' hc (by decide)), if_neg (isDigit_ne c '"' hc (by decide)),
          if_neg (isDigit_ne c '[' hc (by decide)), if_neg (isDigit_ne c '{' hc (by decide)),
          if_neg (isDigit_ne c '-' hc (by decide)), if_pos hc,
          show c :: (ds ++ rest) = natDigits i.toNat ++ rest from by rw [hC]; rfl,
          parseNat_natDigits i.toNat rest hrest]
        show some (Json.num (i.toNat : Int), rest) = some (Json.num i, rest)
        rw [Int.toNat_of_nonneg (by omega)]
  | str s =>
    intro f rest hf hrest
    obtain ⟨f1, rfl⟩ : ∃ f1, f = f1 + 1 :=
      ⟨f - 1, by have := dumps_len_pos (Json.str s); omega⟩
    have hin : dumps (Json.str s) ++ rest = '"' :: (escStr s ++ '"' :: rest) := by
      show ('"' :: escStr s ++ ['"']) ++ rest = _
      simp
    rw [hin, parseVal_step f1 _ '"' (escStr s ++ '"' :: rest)
        (skipWs_cons_neg _ _ (by decide)),
      if_neg (by decide : ¬('"' : Char) = 'n'), if_neg (by decide : ¬('"' : Char) = 't'),
      if_neg (by decide : ¬('"' : Char) = 'f'), if_pos (rfl : ('"' : Char) = '"'),
      parseStr_escStr s rest]
    exact rfl
  | arr xs =>
    intro f rest hf hrest
    obtain ⟨f1, rfl⟩ : ∃ f1, f = f1 + 1 :=
      ⟨f - 1, by have := dumps_len_pos (Json.arr xs); omega⟩
    cases xs with
    | nil =>
      rw [show dumps (Json.arr []) ++ rest = '[' :: (']' :: rest) from rfl,
        parseVal_step f1 _ '[' (']' :: rest) (skipWs_cons_neg _ _ (by decide))]
      exact rfl
    | cons x xs =>
      obtain ⟨c1, t1, hD, hws, hbr, -⟩ := dumps_head_props x
      have hTlen := dumpsArrTail_len xs
      have hxlen := dumps_len_pos x
      have hlen2 : (dumps (Json.arr (x :: xs))).length
          = 2 + (dumps x).length + (dumpsArrTail xs).length := by
        show ('[' :: (dumps x ++ dumpsArrTail xs) ++ [']']).length = _
        simp
        omega
      have hE : dumpsElems (x :: xs) ++ ']' :: rest
          = c1 :: (t1 ++ (dumpsArrTail xs ++ ']' :: rest)) := by
        simp [dumpsElems, hD]
      have hin : dumps (Json.arr (x :: xs)) ++ rest
          = '[' :: (dumpsElems (x :: xs) ++ ']' :: rest) := by
        show ('[' :: (dumps x ++ dumpsArrTail xs) ++ [']']) ++ rest = _
        simp [dumpsElems]
      rw [hin,
        parseVal_arr_step f1 _ _ c1 (t1 ++ (dumpsArrTail xs ++ ']' :: rest))
          (skipWs_cons_neg '[' _ (by decide))
          (by rw [hE]; exact skipWs_cons_neg c1 _ hws)
          hbr,
        show c1 :: (t1 ++ (dumpsArrTail xs ++ ']' :: rest))
            = dumpsElems (x :: xs) ++ ']' :: rest from hE.symm,
        parseListAux_dumps (fun s2 => parseVal f1 s2) (fun t => parseVal_ws f1 t) (x :: xs)
          (by simp) f1 rest
          (by simp only [List.length_cons]; omega)
          (fun el hel r2 hr2 => parseVal_dumps el f1 r2 (by
            rcases List.mem_cons.mp hel with h | h
            · subst h; omega
            · have := hTlen.2 el h; omega) hr2)]
  | obj ms =>
    intro f rest hf hrest
    obtain ⟨f1, rfl⟩ : ∃ f1, f = f1 + 1 :=
      ⟨f - 1, by have := dumps_len_pos (Json.obj ms); omega⟩
    cases ms with
    | nil =>
      rw [show dumps (Json.obj []) ++ rest = '{' :: ('}' :: rest) from rfl,
        parseVal_step f1 _ '{' ('}' :: rest) (skipWs_cons_neg _ _ (by decide))]
      exact rfl
    | cons m ms =>
      obtain ⟨k, v⟩ := m
      have hTlen := dumpsObjTail_len ms
      have hvlen := dumps_len_pos v
      have hlen2 : (dumps (Json.obj ((k, v) :: ms))).length
          = 6 + (escStr k).length + (dumps v).length + (dumpsObjTail ms).length := by
        show ('{' :: (('"' :: escStr k ++ '"' :: ':' :: ' ' :: dumps v) ++ dumpsObjTail ms)
          ++ ['}']).length = _
        simp
        omega
      have hE : dumpsMembers ((k, v) :: ms) ++ '}' :: rest
          = '"' :: (escStr k ++ '"' :: (':' :: (' ' ::
              (dumps v ++ (dumpsObjTail ms ++ '}' :: rest))))) := by
        simp [dumpsMembers, dumpsMember]
      have hin : dumps (Json.obj ((k, v) :: ms)) ++ rest
          = '{' :: (dumpsMembers ((k, v) :: ms) ++ '}' :: rest) := by
        show ('{' :: (('"' :: escStr k ++ '"' :: ':' :: ' ' :: dumps v) ++ dumpsObjTail ms)
          ++ ['}']) ++ rest = _
        simp [dumpsMembers, dumpsMember]
      rw [hin,
        parseVal_obj_step f1 _ _ '"'
          (escStr k ++ '"' :: (':' :: (' ' :: (dumps v ++ (dumpsObjTail ms ++ '}' :: rest)))))
          (skipWs_cons_neg '{' _ (by decide))
          (by rw [hE]; exact skipWs_cons_neg '"' _ (by decide))
          (by decide),
        show ('"' :: (escStr k ++ '"' :: (':' :: (' ' ::
              (dumps v ++ (dumpsObjTail ms ++ '}' :: rest))))) : List Char)
            = dumpsMembers ((k, v) :: ms) ++ '}' :: rest from hE.symm,
        parseMembersAux_dumps (fun s2 => parseVal f1 s2) (fun t => parseVal_ws f1 t)
          ((k, v) :: ms) (by simp) f1 rest
          (by simp only [List.length_cons]; omega)
          (fun mm hmm r2 hr2 => parseVal_dumps mm.2 f1 r2 (by
            rcases List.mem_cons.mp hmm with h | h
            · subst h; show (dumps v).length ≤ f1; omega
            · have := hTlen.2 mm h; omega) hr2)]
termination_by sizeOf v
decreasing_by
  · have h1 := List.sizeOf_lt_of_mem hel
    simp only [Json.arr.sizeOf_spec]
    omega
  · have h1 := List.sizeOf_lt_of_mem hmm
    have h2 : sizeOf mm.2 < sizeOf mm := by
      obtain ⟨a, b⟩ := mm
      simp
    simp only [Json.obj.sizeOf_spec]
    omega

/-- `json.loads` inverts `json.dumps`. -/
theorem loads_dumps (v : Json) : loads (dumps v) = some v := by
  unfold loads
  have h := parseVal_dumps v ((dumps v).length + 1) [] (by omega) trivial
  rw [List.append_nil] at h
  rw [h]
  rfl

/-! ### The serialized form contains no newline -/

theorem hexChar_ne_nl (d : Nat) (hd : d < 16) : ¬ ('\n' = hexChar d) := by
  interval_cases d <;> decide

theorem escChar_nnl (c : Char) : '\n' ∉ escChar c := by
  unfold escChar
  split_ifs with h1 h2 h3 h4 h5 h6 h7 h8
  · decide
  · decide
  · decide
  · decide
  · decide
  · decide
  · decide
  · intro hm
    rcases List.mem_cons.mp hm with he | hm
    · exact absurd he (by decide)
    rcases List.mem_cons.mp hm with he | hm
    · exact absurd he (by decide)
    rcases List.mem_cons.mp hm with he | hm
    · exact absurd he (by decide)
    rcases List.mem_cons.mp hm with he | hm
    · exact absurd he (by decide)
    rcases List.mem_cons.mp hm with he | hm
    · exact absurd he (hexChar_ne_nl (c.toNat / 16) (by omega))
    rcases List.mem_cons.mp hm with he | hm
    · exact absurd he (hexChar_ne_nl (c.toNat % 16) (by omega))
    · simp at hm
  · intro hm
    rcases List.mem_cons.mp hm with he | hm
    · exact h8 (by rw [← he]; decide)
    · simp at hm

theorem escStr_nnl (s : List Char) : '\n' ∉ escStr s := by
  induction s with
  | nil => simp [escStr]
  | cons c cs ih =>
    intro hm
    rcases List.mem_append.mp hm with hm | hm
    · exact escChar_nnl c hm
    · exact ih hm

theorem natDigits_nnl (n : Nat) : '\n' ∉ natDigits n := by
  intro hm
  have := natDigits_digits n '\n' hm
  exact absurd this (by decide)

mutual
theorem dumps_nnl : ∀ v : Json, '\n' ∉ dumps v
  | .null => by decide
  | .bool true => by decide
  | .bool false => by decide
  | .num i => by
    show '\n' ∉ intChars i
    unfold intChars
    split_ifs with hi
    · intro hm
      rcases List.mem_cons.mp hm with he | hm
      · exact absurd he (by decide)
      · exact natDigits_nnl _ hm
    · exact natDigits_nnl _
  | .str s => by
    intro hm
    rcases List.mem_cons.mp hm with he | hm
    · exact absurd he (by decide)
    rcases List.mem_append.mp hm with hm | hm
    · exact escStr_nnl s hm
    · simp at hm
  | .arr [] => by decide
  | .arr (x :: xs) => by
    intro hm
    rcases List.mem_cons.mp hm with he | hm
    · exact absurd he (by decide)
    rcases List.mem_append.mp hm with hm | hm
    · rcases List.mem_append.mp hm with hm | hm
      · exact dumps_nnl x hm
      · exact arrTail_nnl xs hm
    · simp at hm
  | .obj [] => by decide
  | .obj ((k, v) :: ms) => by
    intro hm
    rcases List.mem_cons.mp hm with he | hm
    · exact absurd he (by decide)
    rcases List.mem_append.mp hm with hm | hm
    · rcases List.mem_append.mp hm with hm | hm
      · rcases List.mem_cons.mp hm with he | hm
        · exact absurd he (by decide)
        rcases List.mem_append.mp hm with hm | hm
        · exact escStr_nnl k hm
        rcases List.mem_cons.mp hm with he | hm
        · exact absurd he (by decide)
        rcases List.mem_cons.mp hm with he | hm
        · exact absurd he (by decide)
        rcases List.mem_cons.mp hm with he | hm
        · exact absurd he (by decide)
        · exact dumps_nnl v hm
      · exact objTail_nnl ms hm
    · simp at hm

theorem arrTail_nnl : ∀ xs : List Json, '\n' ∉ dumpsArrTail xs
  | [] => by simp [dumpsArrTail]
  | x :: xs => by
    intro hm
    rcases List.mem_cons.mp hm with he | hm
    · exact absurd he (by decide)
    rcases List.mem_cons.mp hm with he | hm
    · exact absurd he (by decide)
    rcases List.mem_append.mp hm with hm | hm
    · exact dumps_nnl x hm
    · exact arrTail_nnl xs hm

theorem objTail_nnl : ∀ ms : List (List Char × Json), '\n' ∉ dumpsObjTail ms
  | [] => by simp [dumpsObjTail]
  | (k, v) :: ms => by
    intro hm
    rcases List.mem_cons.mp hm with he | hm
    · exact absurd he (by decide)
    rcases List.mem_cons.mp hm with he | hm
    · exact absurd he (by decide)
    rcases List.mem_append.mp hm with hm | hm
    · rcases List.mem_cons.mp hm with he | hm
      · exact absurd he (by decide)
      rcases List.mem_append.mp hm with hm | hm
      · exact escStr_nnl k hm
      rcases List.mem_cons.mp hm with he | hm
      · exact absurd he (by decide)
      rcases List.mem_cons.mp hm with he | hm
      · exact absurd he (by decide)
      rcases List.mem_cons.mp hm with he | hm
      · exact absurd he (by decide)
      · exact dumps_nnl v hm
    · exact objTail_nnl ms hm
end

theorem dumps_contains_nl (v : Json) : (dumps v).contains '\n' = false := by
  have h := dumps_nnl v
  simp [h]

/-! ### Read-loop round trip -/

theorem firstLine_dumps (m : Json) (tr : List Char) :
    firstLine (dumps m ++ '\n' :: tr) = dumps m := by
  unfold firstLine
  exact takeWhile_append_exact _ (dumps m) ('\n' :: tr)
    (fun x hx => by
      have hne : ¬ x = '\n' := fun he => dumps_nnl m (he ▸ hx)
      simpa using hne)
    (headNot_cons _ _ _ (by decide))

theorem dumps_isEmpty (m : Json) : (dumps m).isEmpty = false := by
  cases h : dumps m with
  | nil => have := dumps_len_pos m; rw [h] at this; simp at this
  | cons a t => rfl

/-- The read loop on a chunk holding one complete frame (plus possible
trailing bytes after the newline): the frame before the first newline is
parsed and returned, the later chunks are left unread, and the trailing
bytes of the consumed chunk appear in neither. -/
theorem readLoop_first_frame (r : Json) (trailing : List Char) (rest : List (List Char)) :
    readLoop [] ((dumps r ++ '\n' :: trailing) :: rest) = .ok r rest := by
  have hne : ((dumps r ++ '\n' :: trailing).isEmpty) = false := by
    cases h : dumps r ++ '\n' :: trailing with
    | nil => exact absurd h (by simp)
    | cons a t => rfl
  have hcont : ((dumps r ++ '\n' :: trailing).contains '\n') = true := by
    simp
  simp only [readLoop, hne, Bool.false_eq_true, if_false, List.nil_append, hcont, if_true,
    firstLine_dumps, loads_dumps]

/-! ### Reconnection events follow the backoff pattern -/

theorem reconnectAux_pattern (connects : Nat → Bool) (maxA : Nat) :
    ∀ (fuel attempt ci : Nat), attempt ≤ maxA →
      ∃ m, attempt + m ≤ maxA ∧
        (reconnectAux connects maxA fuel attempt ci).2.1 = backoffPattern attempt m := by
  intro fuel
  induction fuel with
  | zero =>
    intro attempt ci hle
    exact ⟨0, by omega, rfl⟩
  | succ fuel ih =>
    intro attempt ci hle
    by_cases hmax : maxA ≤ attempt
    · refine ⟨0, by omega, ?_⟩
      simp only [reconnectAux, if_pos hmax]
      rfl
    · cases hcon : connects ci with
      | true =>
        refine ⟨1, by omega, ?_⟩
        simp only [reconnectAux, if_neg hmax, hcon, if_true]
        show evChunk attempt = backoffPattern attempt 1
        show evChunk attempt = evChunk attempt ++ backoffPattern (attempt + 1) 0
        rw [show backoffPattern (attempt + 1) 0 = [] from rfl, List.append_nil]
      | false =>
        obtain ⟨m, hm, hev⟩ := ih (attempt + 1) (ci + 1) (by omega)
        refine ⟨m + 1, by omega, ?_⟩
        simp only [reconnectAux, if_neg hmax, hcon, Bool.false_eq_true, if_false]
        show evChunk attempt
            ++ (reconnectAux connects maxA fuel (attempt + 1) (ci + 1)).2.1
          = backoffPattern attempt (m + 1)
        rw [hev]
        rfl

theorem backoffDelay_clamped (a : Nat) (ha : 6 ≤ a) : backoffDelay a = 10 := by
  have h32 : (32 : ℚ) ≤ 2 ^ (a - 1) := by
    calc (32 : ℚ) = 2 ^ 5 := by norm_num
    _ ≤ 2 ^ (a - 1) := pow_le_pow_right₀ (by norm_num) (by omega)
  show min (INITIAL_RECONNECT_DELAY * 2 ^ (a - 1)) MAX_RECONNECT_DELAY = 10
  rw [INITIAL_RECONNECT_DELAY, MAX_RECONNECT_DELAY]
  rw [min_eq_right]
  linarith

/-- Claim C3: in every reconnection sequence the recorded events are an
initial segment of the backoff pattern: no sleep before the first
attempt and a sleep of `backoffDelay j` (the source's
`min(0.5 * 2^(j-1), 10)`) before attempt `j + 1`; rewritten for the
1-based attempt number `n` the delay is `min(0.5 * 2^(n-2), 10)`, which
is exactly 0.5, 1, 2, 4, 8 before attempts 2–6 and clamps to 10 for all
later attempts. -/
theorem claim_C3 (connects : Nat → Bool) (maxAttempts ci : Nat) :
    (∃ m, m ≤ maxAttempts ∧
      (reconnect_with_backoff connects maxAttempts 0 ci).2.1 = backoffPattern 0 m)
    ∧ (∀ n, 2 ≤ n → backoffDelay (n - 1) = min ((1 : ℚ) / 2 * 2 ^ (n - 2)) 10)
    ∧ backoffDelay 1 = 1 / 2 ∧ backoffDelay 2 = 1 ∧ backoffDelay 3 = 2
    ∧ backoffDelay 4 = 4 ∧ backoffDelay 5 = 8
    ∧ (∀ a, 6 ≤ a → backoffDelay a = 10) := by
  refine ⟨?_, ?_, ?_, ?_, ?_, ?_, ?_, backoffDelay_clamped⟩
  · obtain ⟨m, hm, hev⟩ :=
      reconnectAux_pattern connects maxAttempts (maxAttempts + 1) 0 ci (Nat.zero_le _)
    exact ⟨m, by omega, hev⟩
  · intro n hn
    have h2 : n - 1 - 1 = n - 2 := by omega
    rw [backoffDelay, h2, INITIAL_RECONNECT_DELAY, MAX_RECONNECT_DELAY]
  · rw [backoffDelay, INITIAL_RECONNECT_DELAY, MAX_RECONNECT_DELAY]
    rw [min_eq_left (by norm_num)]
    norm_num
  · rw [backoffDelay, INITIAL_RECONNECT_DELAY, MAX_RECONNECT_DELAY]
    rw [min_eq_left (by norm_num)]
    norm_num
  · rw [backoffDelay, INITIAL_RECONNECT_DELAY, MAX_RECONNECT_DELAY]
    rw [min_eq_left (by norm_num)]
    norm_num
  · rw [backoffDelay, INITIAL_RECONNECT_DELAY, MAX_RECONNECT_DELAY]
    rw [min_eq_left (by norm_num)]
    norm_num
  · rw [backoffDelay, INITIAL_RECONNECT_DELAY, MAX_RECONNECT_DELAY]
    rw [min_eq_left (by norm_num)]
    norm_num

/-- Witness for claim C3 at concrete inputs: the clamp at attempt
number 8 (delay index 7) and the closed formula at `n = 3`. -/
theorem claim_C3_witness :
    backoffDelay 7 = 10 ∧ backoffDelay (3 - 1) = min ((1 : ℚ) / 2 * 2 ^ (3 - 2)) 10 :=
  ⟨(claim_C3 (fun _ => false) 8 0).2.2.2.2.2.2.2 7 (by norm_num),
    (claim_C3 (fun _ => false) 8 0).2.1 3 (by norm_num)⟩

/-- Claim C2: the Frame Codec round-trips: `encode` appends exactly one
newline terminator to the serialized form, the serialized form contains
no internal newline, and decoding the resulting byte stream through
`forward_to_pipe`'s read loop yields a value structurally equal to the
original Message. -/
theorem claim_C2 (m req : Json) :
    encode m = dumps m ++ ['\n']
    ∧ '\n' ∉ dumps m
    ∧ readLoop [] [encode m] = .ok m []
    ∧ (forward_to_pipe req [encode m]).2 = .ok m [] :=
  ⟨rfl, dumps_nnl m, readLoop_first_frame m [] [], readLoop_first_frame m [] []⟩

/-- Claim C4: the code's behaviour at the failing input.  The backend
delivers the complete newline-terminated line `not json` — a terminal
syntax error — followed by a perfectly valid frame; `forward_to_pipe`'s
read loop does not fail on the bad frame but keeps accumulating (its
retry consumes the valid second frame too) and ends in the socket
timeout, exactly as it does for a genuinely incomplete frame. -/
theorem claim_C4 :
    firstLine ("not json\nXYZ".data) = "not json".data
    ∧ loads ("not json".data) = none
    ∧ readLoop [] ["not json\n".data, "\x7b\"jsonrpc\": \"2.0\"\x7d\n".data] = .err .timeout
    ∧ readLoop [] ["not js".data] = .err .timeout
    ∧ (forward_to_pipe (Json.obj [])
        ["not json\n".data, "\x7b\"jsonrpc\": \"2.0\"\x7d\n".data]).2 = .err .timeout :=
  ⟨rfl, rfl, rfl, rfl, rfl⟩

/-- Counterexample to claim C5: a single chunk carrying two complete
frames `1\n2\n`.  The decode call returns the first frame with NO
residual retained anywhere — the unread-chunk list is empty although the
valid second frame had been received — and the next decode call, which
starts from an empty buffer, times out instead of yielding frame 2. -/
theorem claim_C5_cex :
    readLoop [] ["1\n2\n".data] = .ok (.num 1) []
    ∧ loads ("2".data) = some (.num 2)
    ∧ readLoop [] ([] : List (List Char)) = .err .timeout :=
  ⟨rfl, rfl, rfl⟩

/-- Claim C5 as amended: per decode call only the first complete line is
consumed; bytes already received after that newline are discarded when
the frame parses (each call's buffer starts empty, nothing is carried
across calls), while chunks not yet read from the socket remain
available. -/
theorem claim_C5 (r : Json) (trailing : List Char) (rest : List (List Char)) :
    readLoop [] ((dumps r ++ '\n' :: trailing) :: rest) = .ok r rest
    ∧ readLoop [] ([] : List (List Char)) = .err .timeout :=
  ⟨readLoop_first_frame r trailing rest, rfl⟩

/-! ### Request retry loop lemmas -/

theorem jsonGet_errFrame (message : List Char) (id : Json) :
    jsonGet (errFrame message id) idKey = id := rfl

theorem requestLoop_some (connects : Nat → Bool) (fwd : Nat → Option Json) :
    ∀ (fuel : Nat) (client : Bool) (ra ci fi : Nat) (r : Json),
      (requestLoop connects fwd fuel client ra ci fi).1 = some r → ∃ k, fwd k = some r := by
  intro fuel
  induction fuel with
  | zero =>
    intro client ra ci fi r h
    exact absurd h (by simp [requestLoop])
  | succ fuel ih =>
    intro client ra ci fi r h
    simp only [requestLoop] at h
    by_cases hra : MAX_RECONNECT_ATTEMPTS ≤ ra
    · rw [if_pos hra] at h
      exact absurd h (by simp)
    · rw [if_neg hra] at h
      by_cases hcl : client = true
      · rw [if_pos hcl] at h
        cases hf : fwd fi with
        | some r2 =>
          rw [hf] at h
          exact ⟨fi, by rw [hf]; exact h⟩
        | none =>
          rw [hf] at h
          exact ih false (ra + 1) ci (fi + 1) r h
      · rw [if_neg hcl] at h
        by_cases hr1 : (reconnect_with_backoff connects MAX_RECONNECT_ATTEMPTS ra ci).1 = true
        · rw [if_pos hr1] at h
          exact ih true ra _ fi r h
        · rw [if_neg hr1] at h
          exact ih false (ra + 1) _ fi r h

/-- Claim C1: for a Request (object with an `id` member), if some
forwarding attempt succeeds within the budget (the retry loop ends with
a response) and the backend obeys the correlation contract (every
response it returns echoes the request's identifier), then the frame
written upstream — whether that response or, for a falsy response, the
synthesized error — carries an Identifier equal to the Request's. -/
theorem claim_C1 (kvs : List (List Char × Json)) (connects : Nat → Bool)
    (fwd : Nat → Option Json) (client : Bool) (r : Json)
    (hid : hasId (Json.obj kvs) = true)
    (hecho : ∀ k r2, fwd k = some r2 → jsonGet r2 idKey = jsonGet (Json.obj kvs) idKey)
    (hsucc : (requestLoop connects fwd REQUEST_FUEL client 0 0 0).1 = some r) :
    jsonGet (requestFrame (Json.obj kvs)
        (requestLoop connects fwd REQUEST_FUEL client 0 0 0).1) idKey
      = jsonGet (Json.obj kvs) idKey := by
  rw [hsucc]
  simp only [requestFrame]
  by_cases ht : jsonTruthy r = true
  · rw [if_pos ht]
    obtain ⟨k, hk⟩ := requestLoop_some connects fwd REQUEST_FUEL client 0 0 0 r hsucc
    exact hecho k r hk
  · rw [if_neg ht]
    exact jsonGet_errFrame _ _

/-- Witness for claim C1: a concrete ping Request with id 1, an
always-connected client, and a backend answering pong with id 1. -/
theorem claim_C1_witness :
    jsonGet (requestFrame
        (Json.obj [("jsonrpc".data, Json.str "2.0".data),
          ("method".data, Json.str "ping".data), ("id".data, Json.num 1)])
        (requestLoop (fun _ => true)
          (fun _ => some (Json.obj [("jsonrpc".data, Json.str "2.0".data),
            ("result".data, Json.str "pong".data), ("id".data, Json.num 1)]))
          REQUEST_FUEL true 0 0 0).1) idKey
      = jsonGet (Json.obj [("jsonrpc".data, Json.str "2.0".data),
          ("method".data, Json.str "ping".data), ("id".data, Json.num 1)]) idKey :=
  claim_C1 _ (fun _ => true) _ true
    (Json.obj [("jsonrpc".data, Json.str "2.0".data),
      ("result".data, Json.str "pong".data), ("id".data, Json.num 1)])
    rfl
    (fun k r2 h => by injection h with h2; rw [← h2]; rfl)
    rfl

/-- Counterexample to claim C6: the backend responds `{}` — a successful
forwarding attempt on the very first try — yet because the source tests
`if response:` (Python truthiness) rather than `response is not None`,
the retry-exhaustion error frame is written upstream instead of the
received Response. -/
theorem claim_C6_cex :
    (requestLoop (fun _ => true) (fun _ => some (Json.obj [])) REQUEST_FUEL true 0 0 0).1
      = some (Json.obj [])
    ∧ requestFrame (Json.obj [("id".data, Json.num 1)]) (some (Json.obj []))
      = errFrame msgExhausted (Json.num 1)
    ∧ jsonTruthy (Json.obj []) = false :=
  ⟨rfl, rfl, rfl⟩

/-- Claim C6 as amended: the frame written upstream is the backend
Response exactly when the retry loop ends with a truthy response; a
falsy successful response (such as the empty object) or a loop that
ends with no response at all yields the synthesized retry-exhaustion
error; and every response the loop can end with really came from a
forwarding attempt. -/
theorem claim_C6 (request : Json) (connects : Nat → Bool) (fwd : Nat → Option Json)
    (client : Bool) :
    (∀ r, (requestLoop connects fwd REQUEST_FUEL client 0 0 0).1 = some r →
        jsonTruthy r = true →
        requestFrame request (requestLoop connects fwd REQUEST_FUEL client 0 0 0).1 = r)
    ∧ (∀ r, (requestLoop connects fwd REQUEST_FUEL client 0 0 0).1 = some r →
        jsonTruthy r = false →
        requestFrame request (requestLoop connects fwd REQUEST_FUEL client 0 0 0).1
          = errFrame msgExhausted (jsonGet request idKey))
    ∧ ((requestLoop connects fwd REQUEST_FUEL client 0 0 0).1 = none →
        requestFrame request (requestLoop connects fwd REQUEST_FUEL client 0 0 0).1
          = errFrame msgExhausted (jsonGet request idKey))
    ∧ (∀ r, (requestLoop connects fwd REQUEST_FUEL client 0 0 0).1 = some r →
        ∃ k, fwd k = some r) := by
  refine ⟨?_, ?_, ?_, ?_⟩
  · intro r hr ht
    rw [hr]
    simp only [requestFrame]
    rw [if_pos ht]
  · intro r hr ht
    rw [hr]
    simp only [requestFrame]
    rw [if_neg (by rw [ht]; exact fun h => by cases h)]
  · intro hr
    rw [hr]
    rfl
  · intro r hr
    exact requestLoop_some connects fwd REQUEST_FUEL client 0 0 0 r hr

/-- Witness for claim C6: with a backend answering `true` (truthy), the
frame written upstream is that response itself. -/
theorem claim_C6_witness :
    requestFrame (Json.obj [("id".data, Json.num 1)])
      (requestLoop (fun _ => true) (fun _ => some (Json.bool true)) REQUEST_FUEL true 0 0 0).1
      = Json.bool true :=
  (claim_C6 (Json.obj [("id".data, Json.num 1)]) (fun _ => true)
    (fun _ => some (Json.bool true)) true).1 (Json.bool true) rfl rfl

/-! ### Main-loop line processing lemmas -/

theorem processLine_badParse (w : LineWorld) (line : List Char) (client : Bool)
    (h : loads (strip line) = none) :
    processLine w line client = ⟨[errFrame msgInvalidJson Json.null], client, []⟩ := by
  simp only [processLine, h]

theorem processLine_noPipe (w : LineWorld) (line : List Char) (client : Bool) (request : Json)
    (h : loads (strip line) = some request) (hp : w.env.pipeExists = false) :
    processLine w line client =
      (if w.env.configExists && !w.env.configReadable then
        (⟨[errFrame msgPermDenied (jsonGet request idKey)], client, []⟩ : LineResult)
      else ⟨[errFrame msgNotRunning (jsonGet request idKey)], client, []⟩) := by
  simp only [processLine, h]
  rw [hp, if_pos (rfl : (false : Bool) = false)]

/-- Counterexample to claim C7: a Notification (no `id` member) arriving
while the socket path is absent.  The missing-socket check at source
line 193 runs before the notification check at line 212, so the bridge
writes the "server is not running" error frame upstream even though the
message is a Notification. -/
theorem claim_C7_cex :
    loads (strip ("\x7b\"method\": \"ping\"\x7d".data))
      = some (Json.obj [("method".data, Json.str "ping".data)])
    ∧ hasId (Json.obj [("method".data, Json.str "ping".data)]) = false
    ∧ (processLine ⟨⟨false, false, true⟩, fun _ => true, fun _ => none, true⟩
        ("\x7b\"method\": \"ping\"\x7d".data) false).frames
      = [errFrame msgNotRunning Json.null] :=
  ⟨rfl, rfl, rfl⟩

/-- Claim C7 as amended: when the socket path exists, processing an
object-shaped Notification (no `id` member) never writes a frame
upstream — the notification is sent (reconnecting first if necessary)
and every failure is dropped silently; but when the socket path is
absent the bridge answers even a Notification with a synthesized error
frame. -/
theorem claim_C7 (w : LineWorld) (line : List Char) (client : Bool)
    (kvs : List (List Char × Json))
    (hp : w.env.pipeExists = true)
    (hparse : loads (strip line) = some (Json.obj kvs))
    (hnotif : hasId (Json.obj kvs) = false) :
    (processLine w line client).frames = [] := by
  simp only [processLine, hparse]
  rw [hp, if_neg (by decide : ¬((true : Bool) = false)), hnotif,
    if_pos (rfl : (false : Bool) = false)]
  split <;> first
  | rfl
  | (split <;> rfl)

/-- Witness for claim C7: a concrete Notification with the socket
present; no frame is written upstream. -/
theorem claim_C7_witness :
    (processLine ⟨⟨true, true, true⟩, fun _ => true, fun _ => none, true⟩
      ("\x7b\"method\": \"ping\"\x7d".data) false).frames = [] :=
  claim_C7 ⟨⟨true, true, true⟩, fun _ => true, fun _ => none, true⟩
    ("\x7b\"method\": \"ping\"\x7d".data) false
    [("method".data, Json.str "ping".data)] rfl rfl rfl

/-- Counterexample to claim C8: a Request while the socket path is
absent AND the config file exists but is unreadable.  The bridge writes
the "Permission denied accessing Camille config" error — not the
claimed "Camille server is not running" error. -/
theorem claim_C8_cex :
    (processLine ⟨⟨false, true, false⟩, fun _ => true, fun _ => none, true⟩
      ("\x7b\"jsonrpc\": \"2.0\", \"method\": \"ping\", \"id\": 1\x7d".data) false).frames
      = [errFrame msgPermDenied (Json.num 1)]
    ∧ msgPermDenied ≠ msgNotRunning :=
  ⟨rfl, by decide⟩

/-- Claim C8 as amended: for every message received while the socket
path is absent, the bridge answers immediately with a synthesized error
frame carrying the original Identifier and performs no connect or
backoff attempt (the events list is empty and the client state is
untouched): the "server is not running" error normally, but the
"Permission denied accessing Camille config" error when the config file
exists and is unreadable. -/
theorem claim_C8 (w : LineWorld) (line : List Char) (client : Bool) (request : Json)
    (hparse : loads (strip line) = some request)
    (hp : w.env.pipeExists = false) :
    (w.env.configExists = true ∧ w.env.configReadable = false →
      processLine w line client
        = ⟨[errFrame msgPermDenied (jsonGet request idKey)], client, []⟩)
    ∧ ((w.env.configExists = false ∨ w.env.configReadable = true) →
      processLine w line client
        = ⟨[errFrame msgNotRunning (jsonGet request idKey)], client, []⟩) := by
  have hstep := processLine_noPipe w line client request hparse hp
  constructor
  · rintro ⟨h1, h2⟩
    rw [hstep, h1, h2]
    rfl
  · intro hor
    rw [hstep]
    rcases hor with h1 | h1
    · rw [h1]
      rfl
    · rw [h1]
      simp only [Bool.not_true, Bool.and_false, Bool.false_eq_true, if_false]

/-- Witness for claim C8: socket absent, no config file; the Request
with id 1 is answered by the "server is not running" error with id 1,
with no connection events. -/
theorem claim_C8_witness :
    processLine ⟨⟨false, false, true⟩, fun _ => true, fun _ => none, true⟩
      ("\x7b\"jsonrpc\": \"2.0\", \"method\": \"ping\", \"id\": 1\x7d".data) false
      = ⟨[errFrame msgNotRunning (Json.num 1)], false, []⟩ :=
  (claim_C8 ⟨⟨false, false, true⟩, fun _ => true, fun _ => none, true⟩
    ("\x7b\"jsonrpc\": \"2.0\", \"method\": \"ping\", \"id\": 1\x7d".data) false
    (Json.obj [("jsonrpc".data, Json.str "2.0".data),
      ("method".data, Json.str "ping".data), ("id".data, Json.num 1)])
    rfl rfl).2 (Or.inl rfl)

/-- Claim C9: an inbound line that fails JSON parsing is answered
immediately with the synthesized `Invalid JSON request` error frame
(code -32603, id null), no connection attempt is made (events empty,
client state untouched), and the main loop goes on to process the
subsequent input. -/
theorem claim_C9 (w : LineWorld) (line : List Char) (client : Bool)
    (hbad : loads (strip line) = none) :
    processLine w line client = ⟨[errFrame msgInvalidJson Json.null], client, []⟩
    ∧ ∀ rest, mainLoop ((line, w) :: rest) client
        = errFrame msgInvalidJson Json.null :: mainLoop rest client := by
  have h := processLine_badParse w line client hbad
  refine ⟨h, fun rest => ?_⟩
  show (processLine w line client).frames
      ++ mainLoop rest (processLine w line client).client = _
  rw [h]
  rfl

/-- Witness for claim C9: the malformed line `not json`. -/
theorem claim_C9_witness :
    processLine ⟨⟨true, true, true⟩, fun _ => true, fun _ => none, true⟩
        ("not json".data) true
      = ⟨[errFrame msgInvalidJson Json.null], true, []⟩
    ∧ mainLoop [(("not json".data),
        ⟨⟨true, true, true⟩, fun _ => true, fun _ => none, true⟩)] true
      = [errFrame msgInvalidJson Json.null] := by
  have h := claim_C9 ⟨⟨true, true, true⟩, fun _ => true, fun _ => none, true⟩
    ("not json".data) true rfl
  refine ⟨h.1, ?_⟩
  rw [h.2 []]
  rfl

/-- Claim C10: every byte stream `main` writes upstream is the
rendering of a list of whole frames, each being the complete JSON
serialization of one message followed by exactly one newline and
flushed as a unit (`print(json.dumps(obj))`): no serialized frame
contains an internal newline, so no partial frame can ever be emitted,
whatever the inputs, backend behaviour, read failures or timeouts. -/
theorem claim_C10 (input : List (List Char × LineWorld)) (client : Bool) :
    mainBytes input client = renderFrames (mainLoop input client)
    ∧ (∀ fr : Json, send_response fr = dumps fr ++ ['\n'])
    ∧ ((mainLoop input client).all fun fr => !((dumps fr).contains '\n')) = true := by
  refine ⟨rfl, fun fr => rfl, ?_⟩
  rw [List.all_eq_true]
  intro fr hfr
  rw [dumps_contains_nl fr]
  rfl
